import Mathlib

/-!
Shallow embedding of the persistence and playback-session core of the
Feather music player (`feather/src/database.rs` and
`feather_frontend/src/backend.rs`), together with theorems settling the
spec claims about it.

Conventions of the embedding:
* `sled::Db` is modelled as an association list `List (String × α)` whose
  keys are kept strictly increasing in the string order (sled iterates and
  answers `last()` in lexicographic byte order; for UTF-8 keys byte order
  and code-point order coincide).  `SledWF` is that invariant.
* Timestamps (`SystemTime::now()` readings) are passed in explicitly as
  `Nat` arguments.
* Rust panics (here: `%= 0` on a `usize`) are modelled by `Option`, the
  panicking branch returning `none`.
* `bincode` (de)serialization is modelled by storing structured values
  (`HValue`) and partial decode functions; `bincode 1.x` slice decoding
  ignores trailing bytes, so a current-shape `HistoryEntry` also decodes
  as the legacy `oldHistoryEntry` (its prefix), while the 4-byte
  migration-marker value `b"true"` decodes as neither.
* `sort_unstable_by` / `sort_by_key` are modelled by `List.mergeSort`
  with the corresponding comparator (the code relies only on the
  sortedness/permutation contract of the unstable sort).
-/

/-- `Song` from `database.rs`: id, title, artist list; equality by all fields
(`#[derive(PartialEq)]`). -/
structure Song where
  id : String
  title : String
  artist_name : List String
deriving DecidableEq, Repr

/-- Current-shape history record (`HistoryEntry` in `database.rs`). -/
structure HistoryEntry where
  song_name : String
  song_id : String
  artist_name : List String
  time_stamp : Nat
  play_count : Nat
deriving DecidableEq, Repr

/-- Legacy-shape history record (`oldHistoryEntry` in `database.rs`),
lacking `play_count`. -/
structure oldHistoryEntry where
  song_name : String
  song_id : String
  artist_name : List String
  time_stamp : Nat
deriving DecidableEq, Repr

/-- `oldHistoryEntry::convert`: upgrade a legacy record, starting its
`play_count` at 1. -/
def oldHistoryEntry.convert (e : oldHistoryEntry) : HistoryEntry :=
  { song_name := e.song_name
    song_id := e.song_id
    artist_name := e.artist_name
    time_stamp := e.time_stamp
    play_count := 1 }

/-- `HistoryEntry::new`: fresh entry at the given clock reading, with
`play_count = 1`. -/
def HistoryEntry.mkNew (song_name song_id : String) (artist_name : List String)
    (now : Nat) : HistoryEntry :=
  { song_name, song_id, artist_name, time_stamp := now, play_count := 1 }

/-- A value stored in the history `sled` tree: a serialized current-shape
entry, a serialized legacy entry, or the raw marker bytes `b"true"`. -/
inductive HValue where
  | entry (e : HistoryEntry)
  | old (e : oldHistoryEntry)
  | marker
deriving DecidableEq, Repr

/-- `bincode::deserialize::<HistoryEntry>` on a stored value.  A legacy
record is missing the trailing `play_count` bytes, and `b"true"` is too
short, so both fail. -/
def HValue.deserializeEntry : HValue → Option HistoryEntry
  | .entry e => some e
  | .old _ => none
  | .marker => none

/-- `bincode::deserialize::<oldHistoryEntry>` on a stored value.  A
current-shape record decodes as its legacy prefix because `bincode` slice
decoding ignores trailing bytes; `b"true"` is too short for the leading
string length and fails. -/
def HValue.deserializeOld : HValue → Option oldHistoryEntry
  | .entry e => some { song_name := e.song_name, song_id := e.song_id,
                       artist_name := e.artist_name, time_stamp := e.time_stamp }
  | .old e => some e
  | .marker => none

/-- `MIGRATION_KEY` in `database.rs`. -/
def MIGRATION_KEY : String := "DONE"

/-- `HISTORY_PAGE_SIZE` in `database.rs`. -/
def HISTORY_PAGE_SIZE : Nat := 20

/-- `FAVOURITE_SONGS_SIZE` in `database.rs`. -/
def FAVOURITE_SONGS_SIZE : Nat := 5

/-- A `sled` tree: association list ordered strictly by key. -/
abbrev Sled (α : Type) : Type := List (String × α)

/-- `Db::get`. -/
def sledGet {α : Type} (db : Sled α) (k : String) : Option α :=
  (List.find? (fun p => p.1 = k) db).map (·.2)

/-- `Db::insert`: insert or replace, keeping keys sorted (sled keeps keys
in byte order). -/
def sledInsert {α : Type} : Sled α → String → α → Sled α
  | [], k, v => [(k, v)]
  | (k', v') :: rest, k, v =>
    if k < k' then (k, v) :: (k', v') :: rest
    else if k = k' then (k, v) :: rest
    else (k', v') :: sledInsert rest k v

/-- `Db::remove` modelled as the pair (previous value, resulting tree). -/
def sledRemove {α : Type} (db : Sled α) (k : String) : Option α × Sled α :=
  (sledGet db k, List.filter (fun p => ¬ p.1 = k) db)

/-- `Db::last`: last key/value pair in key order. -/
def sledLast {α : Type} (db : Sled α) : Option (String × α) :=
  db.getLast?

/-- Well-formedness of a modelled sled tree: keys strictly increasing. -/
def SledWF {α : Type} (db : Sled α) : Prop :=
  List.Pairwise (fun p q => p.1 < q.1) db

instance {α : Type} (db : Sled α) : Decidable (SledWF db) := by
  unfold SledWF; infer_instance

/-- The history store. -/
abbrev HStore : Type := Sled HValue

/-- Errors of history operations that the model can exhibit
(`HistoryError` in `database.rs`; the I/O-level variants cannot arise in
the model). -/
inductive HistoryError where
  | SerializationError
deriving DecidableEq, Repr

/-- `HistoryDB::add_entry`: read-modify-write keyed by the entry's song
id; an existing entry gets `play_count + 1` and a refreshed timestamp, a
missing one is inserted as given. -/
def add_entry (db : HStore) (now : Nat) (entry : HistoryEntry) :
    Except HistoryError HStore :=
  match sledGet db entry.song_id with
  | some v =>
    match v.deserializeEntry with
    | none => .error .SerializationError
    | some existing =>
      .ok (sledInsert db entry.song_id
        (.entry { existing with play_count := existing.play_count + 1,
                                time_stamp := now }))
  | none => .ok (sledInsert db entry.song_id (.entry entry))

/-- `HistoryDB::get_history`: scan (skipping records that fail to decode),
sort by timestamp descending, then `skip(offset).take(HISTORY_PAGE_SIZE)`. -/
def get_history (db : HStore) (offset : Nat) : List HistoryEntry :=
  (((db.filterMap (fun p => p.2.deserializeEntry)).mergeSort
      (fun e1 e2 => decide (e2.time_stamp ≤ e1.time_stamp))).drop offset).take
    HISTORY_PAGE_SIZE

/-- `HistoryDB::get_last_played_song`: decode the value under the *last
key in key order* (`db.last()`), not the most recent timestamp. -/
def get_last_played_song (db : HStore) : Except HistoryError (Option String) :=
  match sledLast db with
  | some (_, v) =>
    match v.deserializeEntry with
    | none => .error .SerializationError
    | some e => .ok (some e.song_id)
  | none => .ok none

/-- `HistoryDB::migrate_history`: if the marker key is present, return at
once; otherwise rewrite every record that decodes as a legacy entry
(`backup_history` only writes an external file and is invisible to the
store) and finally set the marker. -/
def migrate_history (db : HStore) : HStore :=
  match sledGet db MIGRATION_KEY with
  | some _ => db
  | none =>
    let rewritten : HStore := db.map (fun p =>
      match p.2.deserializeOld with
      | some o => (p.1, HValue.entry o.convert)
      | none => p)
    sledInsert rewritten MIGRATION_KEY .marker

/-- The transient `SongDatabase` (song-page store): after construction the
keys are exactly the decimal strings `"0" .. "n-1"`, so it is the list of
songs in insertion order; `db.len()` is the list length. -/
structure SongDatabase where
  songs : List Song
deriving DecidableEq, Repr

/-- `SongDatabase::get_song_by_index`. -/
def SongDatabase.get_song_by_index (db : SongDatabase) (i : Nat) : Option Song :=
  db.songs.get? i

/-- `sled::Db::len` of the song-page store. -/
def SongDatabase.len (db : SongDatabase) : Nat :=
  db.songs.length

/-- The playback-session state the playlist-traversal operations touch
(`Backend.playlist` and `Backend.current_index_playlist`). -/
structure BState where
  playlist : Option SongDatabase
  current_index_playlist : Nat
deriving DecidableEq, Repr

/-- `Backend::next_song_playlist`.  Result: `none` when the Rust code
panics (`*current_index %= len` with `len = 0` is a remainder by zero);
otherwise the new state paired with the song passed to `play_music`
(`none` when no play command is issued). -/
def next_song_playlist (s : BState) : Option (BState × Option Song) :=
  match s.playlist with
  | none => some (s, none)
  | some pl =>
    let len := pl.len
    let bumped := s.current_index_playlist + 1
    if len = 0 then
      none
    else
      let newIndex := bumped % len
      some ({ s with current_index_playlist := newIndex },
            pl.get_song_by_index newIndex)

/-- `Backend::prev_song_playlist`: decrement the index unless it is
already 0, then play the song now at the index (if any). -/
def prev_song_playlist (s : BState) : BState × Option Song :=
  match s.playlist with
  | none => (s, none)
  | some pl =>
    let newIndex :=
      if s.current_index_playlist > 0 then s.current_index_playlist - 1
      else s.current_index_playlist
    ({ s with current_index_playlist := newIndex },
     pl.get_song_by_index newIndex)

/-- Iterated `next_song_playlist`, discarding the played songs; `none` if
any step panics. -/
def advanceNextN : Nat → BState → Option BState
  | 0, s => some s
  | n + 1, s => (next_song_playlist s).bind (fun r => advanceNextN n r.1)

/-- `UserPlaylist` in `database.rs`: name, next free index, list of
(index, song) entries in insertion order. -/
structure UserPlaylist where
  playlist_name : String
  max_index : Nat
  songs : List (Nat × Song)
deriving DecidableEq, Repr

/-- `UserPlaylist::new`. -/
def UserPlaylist.mkNew (name : String) : UserPlaylist :=
  { playlist_name := name, max_index := 0, songs := [] }

/-- `PlaylistManagerError` (the variants the model can exhibit). -/
inductive PlaylistManagerError where
  | PlaylistNotFound (name : String)
  | DuplicatePlaylist (name : String)
  | Other (msg : String)
deriving DecidableEq, Repr

/-- The playlist store: playlist name ↦ serialized `UserPlaylist`. -/
abbrev PStore : Type := Sled UserPlaylist

/-- `PlaylistManager::create_playlist`. -/
def create_playlist (db : PStore) (name : String) :
    Except PlaylistManagerError PStore :=
  match sledGet db name with
  | some _ => .error (.DuplicatePlaylist name)
  | none => .ok (sledInsert db name (UserPlaylist.mkNew name))

/-- The in-playlist update performed by
`PlaylistManager::add_song_to_playlist`: drop every entry with the same
song id (`retain`), append the song at `max_index`, bump `max_index`. -/
def UserPlaylist.addSong (pl : UserPlaylist) (song : Song) : UserPlaylist :=
  { pl with
      songs := pl.songs.filter (fun s => ¬ s.2.id = song.id) ++
        [(pl.max_index, song)]
      max_index := pl.max_index + 1 }

/-- `PlaylistManager::add_song_to_playlist`.  A missing playlist is
reported with the generic `Other("Error: In Opening Playlist")` variant
(the `ok_or_else` at the `get`); the pair carries the store so that
"unchanged on error" is statable. -/
def add_song_to_playlist (db : PStore) (name : String) (song : Song) :
    Except PlaylistManagerError Unit × PStore :=
  match sledGet db name with
  | none => (.error (.Other "Error: In Opening Playlist"), db)
  | some pl => (.ok (), sledInsert db name (pl.addSong song))

/-- `PlaylistManager::get_playlist`: entries sorted by stored index
ascending, projected to songs. -/
def get_playlist (db : PStore) (name : String) :
    Except PlaylistManagerError (List Song) :=
  match sledGet db name with
  | none => .error (.PlaylistNotFound name)
  | some pl =>
    .ok ((pl.songs.mergeSort (fun a b => decide (a.1 ≤ b.1))).map (·.2))

/-- `PlaylistManager::delete_playlist`: the `ok_or_else` not-found check
on the `remove` result is computed but its value is dropped (no `?`), so
the function returns `Ok` either way. -/
def delete_playlist (db : PStore) (name : String) :
    Except PlaylistManagerError Unit × PStore :=
  let removed := sledRemove db name
  let «_check» : Except PlaylistManagerError HValue :=
    match removed.1 with
    | some _ => .ok .marker
    | none => .error (.PlaylistNotFound name)
  (.ok (), removed.2)

/-- Number of records stored under a key. -/
def countKey {α : Type} (db : Sled α) (k : String) : Nat :=
  db.countP (fun p => p.1 = k)

/-- A concrete 40-entry history store used to exercise the pagination
partition property. -/
def c8db : HStore :=
  (List.range 40).map (fun i => ("", HValue.entry ⟨"", "", [], i, 1⟩))

theorem sledGet_insert_self {α : Type} (db : Sled α) (k : String) (v : α) :
    sledGet (sledInsert db k v) k = some v := by
  induction db with
  | nil => simp [sledInsert, sledGet, List.find?]
  | cons hd tl ih =>
    obtain ⟨k', v'⟩ := hd
    by_cases h1 : k < k'
    · simp [sledInsert, sledGet, List.find?, h1]
    · by_cases h2 : k = k'
      · simp [sledInsert, sledGet, List.find?, h1, h2]
      · have hne : ¬ (k' = k) := fun h => h2 h.symm
        simpa [sledInsert, sledGet, List.find?, h1, h2, hne] using ih

theorem mem_sledInsert {α : Type} {db : Sled α} {k : String} {v : α}
    {p : String × α} (hp : p ∈ sledInsert db k v) : p ∈ db ∨ p.1 = k := by
  induction db with
  | nil => simp [sledInsert] at hp; simp [hp]
  | cons hd tl ih =>
    obtain ⟨k', v'⟩ := hd
    by_cases h1 : k < k'
    · simp only [sledInsert, if_pos h1, List.mem_cons] at hp
      rcases hp with h | h | h
      · right; rw [h]
      · left; simp [h]
      · left; simp [h]
    · by_cases h2 : k = k'
      · simp only [sledInsert, if_neg h1, if_pos h2, List.mem_cons] at hp
        rcases hp with h | h
        · right; rw [h]
        · left; simp [h]
      · simp only [sledInsert, if_neg h1, if_neg h2, List.mem_cons] at hp
        rcases hp with h | h
        · left; simp [h]
        · rcases ih h with h' | h'
          · left; simp [h']
          · right; exact h'

theorem sledInsert_wf {α : Type} {db : Sled α} (hwf : SledWF db)
    (k : String) (v : α) : SledWF (sledInsert db k v) := by
  induction db with
  | nil => simp [sledInsert, SledWF]
  | cons hd tl ih =>
    obtain ⟨k', v'⟩ := hd
    rw [SledWF, List.pairwise_cons] at hwf
    obtain ⟨hall, htl⟩ := hwf
    by_cases h1 : k < k'
    · rw [SledWF]
      simp only [sledInsert, if_pos h1]
      refine List.Pairwise.cons ?_ ?_
      · intro q hq
        rcases List.mem_cons.mp hq with h | h
        · rw [h]; exact h1
        · exact lt_trans h1 (hall q h)
      · exact List.Pairwise.cons hall htl
    · by_cases h2 : k = k'
      · rw [SledWF]
        simp only [sledInsert, if_neg h1, if_pos h2]
        refine List.Pairwise.cons ?_ htl
        intro q hq
        rw [h2]
        exact hall q hq
      · have hk : k' < k := by
          rcases lt_trichotomy k k' with h | h | h
          · exact absurd h h1
          · exact absurd h h2
          · exact h
        rw [SledWF]
        simp only [sledInsert, if_neg h1, if_neg h2]
        refine List.Pairwise.cons ?_ (ih htl)
        intro q hq
        rcases mem_sledInsert hq with h | h
        · exact hall q h
        · rw [h]; exact hk

theorem sledGet_eq_none_iff {α : Type} {db : Sled α} {k : String} :
    sledGet db k = none ↔ ∀ p ∈ db, ¬ p.1 = k := by
  constructor
  · intro h p hp hk
    rw [sledGet, Option.map_eq_none'] at h
    have := List.find?_eq_none.mp h p hp
    simp [hk] at this
  · intro h
    rw [sledGet, Option.map_eq_none']
    exact List.find?_eq_none.mpr (fun p hp => by simp [h p hp])

theorem countKey_sledInsert {α : Type} {db : Sled α} (hwf : SledWF db)
    (k : String) (v : α) : countKey (sledInsert db k v) k = 1 := by
  induction db with
  | nil => simp [sledInsert, countKey, List.countP, List.countP.go]
  | cons hd tl ih =>
    obtain ⟨k', v'⟩ := hd
    rw [SledWF, List.pairwise_cons] at hwf
    obtain ⟨hall, htl⟩ := hwf
    by_cases h1 : k < k'
    · have hcount : countKey ((k', v') :: tl) k = 0 := by
        rw [countKey, List.countP_eq_zero]
        intro p hp
        rcases List.mem_cons.mp hp with h | h
        · rw [h]; simp; intro he; rw [he] at h1; exact lt_irrefl _ h1
        · have := hall p h
          simp; intro he
          rw [he] at this
          exact absurd (lt_trans h1 this) (lt_irrefl _)
      simp only [sledInsert, if_pos h1]
      rw [countKey, List.countP_cons]
      rw [countKey] at hcount
      simp [hcount]
    · by_cases h2 : k = k'
      · have hcount : countKey tl k = 0 := by
          rw [countKey, List.countP_eq_zero]
          intro p hp
          have := hall p hp
          simp; intro he
          rw [he, h2] at this
          exact lt_irrefl _ this
        simp only [sledInsert, if_neg h1, if_pos h2]
        rw [countKey, List.countP_cons]
        rw [countKey] at hcount
        simp [hcount]
      · simp only [sledInsert, if_neg h1, if_neg h2]
        rw [countKey, List.countP_cons]
        have : ¬ (k' = k) := fun h => h2 h.symm
        rw [countKey] at ih
        simp [this, ih htl]

theorem advanceNextN_mod (pl : SongDatabase) (hlen : pl.len ≠ 0) :
    ∀ (k j : Nat), j < pl.len →
      advanceNextN k { playlist := some pl, current_index_playlist := j } =
        some { playlist := some pl, current_index_playlist := (j + k) % pl.len }
  | 0, j, hj => by
      simp [advanceNextN, Nat.mod_eq_of_lt hj]
  | k + 1, j, hj => by
      rw [advanceNextN]
      simp only [next_song_playlist, if_neg hlen, Option.bind_eq_bind,
        Option.some_bind]
      rw [advanceNextN_mod pl hlen k ((j + 1) % pl.len)
        (Nat.mod_lt _ (Nat.pos_of_ne_zero hlen))]
      rw [Nat.mod_add_mod]
      have harith : j + 1 + k = j + (k + 1) := by omega
      rw [harith]

/-- C1: the spec demands that `advance(Next)` on an empty active playlist
be a no-op with the length guarded before the modulo; the code has no
such guard, so `*current_index %= playlist.db.len()` is a remainder by
zero and the call panics (modelled as `none`), for every current index. -/
theorem next_song_playlist_empty_panics (i : Nat) :
    next_song_playlist
      { playlist := some { songs := [] }, current_index_playlist := i } = none := rfl

/-- C6: with a non-empty active playlist of length `L` and current index
`i < L`, every `advance(Next)` step moves the index to
`(current + 1) % L` (and plays the song there), and `L` consecutive steps
return the index to `i`. -/
theorem next_song_playlist_wraparound (pl : SongDatabase) (i : Nat)
    (hL : 1 ≤ pl.len) (hi : i < pl.len) :
    (∀ j : Nat,
      next_song_playlist { playlist := some pl, current_index_playlist := j } =
        some ({ playlist := some pl, current_index_playlist := (j + 1) % pl.len },
              pl.get_song_by_index ((j + 1) % pl.len))) ∧
    advanceNextN pl.len { playlist := some pl, current_index_playlist := i } =
      some { playlist := some pl, current_index_playlist := i } := by
  have hlen : pl.len ≠ 0 := by omega
  constructor
  · intro j
    simp [next_song_playlist, if_neg hlen]
  · rw [advanceNextN_mod pl hlen pl.len i hi, Nat.add_mod_right,
      Nat.mod_eq_of_lt hi]

/-- Witness for C6 at a concrete 3-song playlist starting from index 1. -/
theorem next_song_playlist_wraparound_witness :
    (1 ≤ (SongDatabase.mk [⟨"a", "A", []⟩, ⟨"b", "B", []⟩, ⟨"c", "C", []⟩]).len ∧
     1 < (SongDatabase.mk [⟨"a", "A", []⟩, ⟨"b", "B", []⟩, ⟨"c", "C", []⟩]).len) ∧
    advanceNextN (SongDatabase.mk [⟨"a", "A", []⟩, ⟨"b", "B", []⟩, ⟨"c", "C", []⟩]).len
      { playlist := some (SongDatabase.mk [⟨"a", "A", []⟩, ⟨"b", "B", []⟩, ⟨"c", "C", []⟩]),
        current_index_playlist := 1 } =
      some { playlist := some (SongDatabase.mk [⟨"a", "A", []⟩, ⟨"b", "B", []⟩, ⟨"c", "C", []⟩]),
             current_index_playlist := 1 } :=
  ⟨⟨by decide, by decide⟩,
    (next_song_playlist_wraparound
      (SongDatabase.mk [⟨"a", "A", []⟩, ⟨"b", "B", []⟩, ⟨"c", "C", []⟩]) 1
      (by decide) (by decide)).2⟩

/-- C7: with an active playlist, `advance(Previous)` at current index 0
leaves the state unchanged at index 0 (clamps, does not wrap to the last
entry). -/
theorem prev_song_playlist_clamps_at_zero (pl : SongDatabase) :
    (prev_song_playlist
      { playlist := some pl, current_index_playlist := 0 }).1 =
      { playlist := some pl, current_index_playlist := 0 } := rfl

/-- C2: starting from a well-formed store with no record for `t.id`,
recording a play of `t` twice (as `play_music` does: a fresh
`HistoryEntry::from(song)` handed to `add_entry`) leaves exactly one
record keyed by `t.id`, with `play_count = 2` and the second call's
timestamp. -/
theorem record_play_twice (db : HStore) (t : Song) (now1 now2 : Nat)
    (hwf : SledWF db) (habs : sledGet db t.id = none) :
    ∃ db1 db2 : HStore,
      add_entry db now1 (HistoryEntry.mkNew t.title t.id t.artist_name now1) =
        .ok db1 ∧
      add_entry db1 now2 (HistoryEntry.mkNew t.title t.id t.artist_name now2) =
        .ok db2 ∧
      countKey db2 t.id = 1 ∧
      sledGet db2 t.id = some (.entry
        { song_name := t.title, song_id := t.id, artist_name := t.artist_name,
          time_stamp := now2, play_count := 2 }) := by
  refine ⟨sledInsert db t.id
      (.entry (HistoryEntry.mkNew t.title t.id t.artist_name now1)),
    sledInsert (sledInsert db t.id
        (.entry (HistoryEntry.mkNew t.title t.id t.artist_name now1))) t.id
      (.entry { song_name := t.title, song_id := t.id,
                artist_name := t.artist_name, time_stamp := now2,
                play_count := 2 }),
    ?_, ?_, ?_, ?_⟩
  · simp only [add_entry, HistoryEntry.mkNew, habs]
  · simp only [add_entry, HistoryEntry.mkNew]
    rw [sledGet_insert_self]
    rfl
  · exact countKey_sledInsert (sledInsert_wf hwf t.id _) t.id _
  · exact sledGet_insert_self _ t.id _

/-- Witness for C2: an empty store, the track `("id1", "T")`, timestamps
5 then 9. -/
theorem record_play_twice_witness :
    SledWF ([] : HStore) ∧ sledGet ([] : HStore) (Song.mk "id1" "T" []).id = none ∧
    (∃ db1 db2 : HStore,
      add_entry [] 5 (HistoryEntry.mkNew (Song.mk "id1" "T" []).title
        (Song.mk "id1" "T" []).id (Song.mk "id1" "T" []).artist_name 5) = .ok db1 ∧
      add_entry db1 9 (HistoryEntry.mkNew (Song.mk "id1" "T" []).title
        (Song.mk "id1" "T" []).id (Song.mk "id1" "T" []).artist_name 9) = .ok db2 ∧
      countKey db2 (Song.mk "id1" "T" []).id = 1 ∧
      sledGet db2 (Song.mk "id1" "T" []).id = some (.entry
        { song_name := (Song.mk "id1" "T" []).title,
          song_id := (Song.mk "id1" "T" []).id,
          artist_name := (Song.mk "id1" "T" []).artist_name,
          time_stamp := 9, play_count := 2 })) :=
  ⟨by decide, rfl, record_play_twice [] (Song.mk "id1" "T" []) 5 9 (by decide) rfl⟩

theorem sledLast_eq_of_max {α : Type} {db : Sled α} (hwf : SledWF db)
    {p : String × α} (hp : p ∈ db) (hmax : ∀ q ∈ db, q.1 ≤ p.1) :
    sledLast db = some p := by
  induction db with
  | nil => cases hp
  | cons hd tl ih =>
    rw [SledWF, List.pairwise_cons] at hwf
    obtain ⟨hall, htl⟩ := hwf
    cases tl with
    | nil =>
      rcases List.mem_cons.mp hp with h | h
      · rw [h]; rfl
      · cases h
    | cons hd2 tl2 =>
      have hp' : p ∈ hd2 :: tl2 := by
        rcases List.mem_cons.mp hp with h | h
        · exfalso
          have h1 : hd.1 < hd2.1 := hall hd2 (by simp)
          have h2 : hd2.1 ≤ p.1 := hmax hd2 (by simp)
          rw [h] at h2
          exact absurd (lt_of_lt_of_le h1 h2) (lt_irrefl _)
        · exact h
      have := ih htl hp' (fun q hq => hmax q (List.mem_cons_of_mem hd hq))
      rw [sledLast] at this ⊢
      rw [List.getLast?_cons_cons]
      exact this

/-- Amended C3: `get_last_played_song` returns the song id of the record
stored under the *greatest key in the store's key order* (sled's
`last()`), provided that record decodes as a history entry; on an empty
store it returns none.  It does not select by `last_played_at`. -/
theorem get_last_played_song_last_key (db : HStore) (k : String)
    (e : HistoryEntry) (hwf : SledWF db) (hmem : (k, HValue.entry e) ∈ db)
    (hmax : ∀ q ∈ db, q.1 ≤ k) :
    get_last_played_song ([] : HStore) = .ok none ∧
    get_last_played_song db = .ok (some e.song_id) := by
  constructor
  · rfl
  · have hlast : sledLast db = some (k, HValue.entry e) :=
      sledLast_eq_of_max hwf hmem hmax
    simp only [get_last_played_song, hlast, HValue.deserializeEntry]

/-- Witness for the amended C3 at a one-entry store. -/
theorem get_last_played_song_last_key_witness :
    SledWF ([(("x" : String), HValue.entry ⟨"X", "x", [], 7, 1⟩)] : HStore) ∧
    (("x", HValue.entry ⟨"X", "x", [], 7, 1⟩) ∈
      ([(("x" : String), HValue.entry ⟨"X", "x", [], 7, 1⟩)] : HStore)) ∧
    (∀ q ∈ ([(("x" : String), HValue.entry ⟨"X", "x", [], 7, 1⟩)] : HStore),
      q.1 ≤ "x") ∧
    (get_last_played_song ([] : HStore) = .ok none ∧
     get_last_played_song [(("x" : String), HValue.entry ⟨"X", "x", [], 7, 1⟩)] =
       .ok (some (HistoryEntry.mk "X" "x" [] 7 1).song_id)) :=
  ⟨by simp [SledWF], by simp, by simp,
    get_last_played_song_last_key _ "x" ⟨"X", "x", [], 7, 1⟩
      (by simp [SledWF]) (by simp) (by simp)⟩

/-- Counterexample to C3 as stated: in this store the entry with id "a"
has the strictly greatest `last_played_at` (100 over 50), yet
`get_last_played_song` answers "b" — it reads the last *key*, not the
most recent timestamp. -/
theorem get_last_played_song_counterexample :
    SledWF ([("DONE", HValue.marker),
             ("a", HValue.entry ⟨"A", "a", [], 100, 1⟩),
             ("b", HValue.entry ⟨"B", "b", [], 50, 1⟩)] : HStore) ∧
    (("a", HValue.entry ⟨"A", "a", [], 100, 1⟩) ∈
      ([("DONE", HValue.marker),
        ("a", HValue.entry ⟨"A", "a", [], 100, 1⟩),
        ("b", HValue.entry ⟨"B", "b", [], 50, 1⟩)] : HStore)) ∧
    (([("DONE", HValue.marker),
       ("a", HValue.entry ⟨"A", "a", [], 100, 1⟩),
       ("b", HValue.entry ⟨"B", "b", [], 50, 1⟩)] : HStore).filterMap
        (fun p => p.2.deserializeEntry) =
      [⟨"A", "a", [], 100, 1⟩, ⟨"B", "b", [], 50, 1⟩] ∧
     (HistoryEntry.mk "A" "a" [] 100 1).song_id = "a" ∧
     (HistoryEntry.mk "B" "b" [] 50 1).time_stamp <
       (HistoryEntry.mk "A" "a" [] 100 1).time_stamp) ∧
    get_last_played_song
      [("DONE", HValue.marker),
       ("a", HValue.entry ⟨"A", "a", [], 100, 1⟩),
       ("b", HValue.entry ⟨"B", "b", [], 50, 1⟩)] = .ok (some "b") ∧
    ¬ get_last_played_song
      [("DONE", HValue.marker),
       ("a", HValue.entry ⟨"A", "a", [], 100, 1⟩),
       ("b", HValue.entry ⟨"B", "b", [], 50, 1⟩)] = .ok (some "a") := by
  refine ⟨?_, by simp, ⟨by decide, by decide, by decide⟩, rfl, ?_⟩
  · simp [SledWF, String.lt_iff_toList_lt]
    decide
  · intro hcontra
    rw [show get_last_played_song
        [("DONE", HValue.marker),
         ("a", HValue.entry ⟨"A", "a", [], 100, 1⟩),
         ("b", HValue.entry ⟨"B", "b", [], 50, 1⟩)] = .ok (some "b") from rfl]
      at hcontra
    simp at hcontra

/-- C9: `migrate_history` short-circuits whenever the migration marker is
present (leaving the whole store untouched), always leaves the marker
present, and is therefore idempotent: a second call is the identity on
the migrated store. -/
theorem migrate_history_idempotent (db : HStore) :
    (sledGet db MIGRATION_KEY ≠ none → migrate_history db = db) ∧
    sledGet (migrate_history db) MIGRATION_KEY ≠ none ∧
    migrate_history (migrate_history db) = migrate_history db := by
  cases h : sledGet db MIGRATION_KEY with
  | some v =>
    refine ⟨fun _ => by simp [migrate_history, h], ?_, ?_⟩
    · simp [migrate_history, h]
    · simp [migrate_history, h]
  | none =>
    refine ⟨fun hc => absurd rfl hc, ?_, ?_⟩
    · simp only [migrate_history, h]
      rw [sledGet_insert_self]
      simp
    · conv_lhs => rw [migrate_history]
      simp only [migrate_history, h]
      rw [sledGet_insert_self]

/-- Witness for C9: a store already carrying the marker is returned
unchanged. -/
theorem migrate_history_idempotent_witness :
    sledGet ([("DONE", HValue.marker)] : HStore) MIGRATION_KEY ≠ none ∧
    migrate_history [("DONE", HValue.marker)] = [("DONE", HValue.marker)] :=
  ⟨by decide, (migrate_history_idempotent [("DONE", HValue.marker)]).1 (by decide)⟩

/-- C10: `delete_playlist` always reports success — the not-found check
on the `remove` result is built and immediately dropped — and deleting an
absent name leaves the store unchanged. -/
theorem delete_playlist_absent_ok (db : PStore) (name : String) :
    (delete_playlist db name).1 = .ok () ∧
    (sledGet db name = none → (delete_playlist db name).2 = db) := by
  refine ⟨rfl, fun h => ?_⟩
  simp only [delete_playlist, sledRemove]
  rw [List.filter_eq_self]
  intro p hp
  simpa using sledGet_eq_none_iff.mp h p hp

/-- Witness for C10 at the empty store and the name "x". -/
theorem delete_playlist_absent_ok_witness :
    sledGet ([] : PStore) "x" = none ∧ (delete_playlist [] "x").2 = [] :=
  ⟨rfl, (delete_playlist_absent_ok [] "x").2 rfl⟩

theorem mergeSort_getLast_of_strict_max {α : Type} [DecidableEq α]
    (key : α → Nat) (l : List α) (x : α) (hx : x ∈ l)
    (hmax : ∀ y ∈ l, key y ≤ key x)
    (huniq : ∀ y ∈ l, key y = key x → y = x) :
    (l.mergeSort (fun a b => decide (key a ≤ key b))).getLast? = some x := by
  have hperm := List.mergeSort_perm l (fun a b => decide (key a ≤ key b))
  have hsorted := @List.sorted_mergeSort α
    (fun a b => decide (key a ≤ key b))
    (fun a b c h1 h2 => by
      simp only [decide_eq_true_eq] at h1 h2 ⊢
      exact le_trans h1 h2)
    (fun a b => by
      simp only [Bool.or_eq_true, decide_eq_true_eq]
      exact Nat.le_total (key a) (key b)) l
  have hxs : x ∈ l.mergeSort (fun a b => decide (key a ≤ key b)) :=
    hperm.mem_iff.mpr hx
  have hne : l.mergeSort (fun a b => decide (key a ≤ key b)) ≠ [] := by
    intro h0
    rw [h0] at hxs
    cases hxs
  have hzmem := List.getLast_mem hne
  have hzl : (l.mergeSort (fun a b => decide (key a ≤ key b))).getLast hne ∈ l :=
    hperm.mem_iff.mp hzmem
  have hdecomp := List.dropLast_append_getLast hne
  have hze : (l.mergeSort (fun a b => decide (key a ≤ key b))).getLast hne = x := by
    rcases List.mem_append.mp (hdecomp ▸ hxs) with hxfront | hxlast
    · have hpair : List.Pairwise
          (fun a b => (fun a b => decide (key a ≤ key b)) a b = true)
          ((l.mergeSort (fun a b => decide (key a ≤ key b))).dropLast ++
            [(l.mergeSort (fun a b => decide (key a ≤ key b))).getLast hne]) := by
        rw [hdecomp]
        exact hsorted
      have hxz := (List.pairwise_append.mp hpair).2.2 x hxfront
        ((l.mergeSort (fun a b => decide (key a ≤ key b))).getLast hne)
        (List.mem_singleton.mpr rfl)
      simp only [decide_eq_true_eq] at hxz
      exact huniq _ hzl (le_antisymm (hmax _ hzl) hxz)
    · exact (List.mem_singleton.mp hxlast).symm
  rw [List.getLast?_eq_getLast _ hne, hze]

/-- Amended C5: adding a track to an absent playlist fails — but with the
generic `Other("Error: In Opening Playlist")` variant produced by the
`ok_or_else` on the `get`, not `PlaylistNotFound` — and leaves the store
unchanged. -/
theorem add_song_to_playlist_absent (db : PStore) (name : String) (song : Song)
    (h : sledGet db name = none) :
    add_song_to_playlist db name song =
      (.error (.Other "Error: In Opening Playlist"), db) := by
  simp only [add_song_to_playlist, h]

/-- Witness for the amended C5 at the empty store. -/
theorem add_song_to_playlist_absent_witness :
    sledGet ([] : PStore) "p" = none ∧
    add_song_to_playlist ([] : PStore) "p" ⟨"i", "T", []⟩ =
      (.error (.Other "Error: In Opening Playlist"), ([] : PStore)) :=
  ⟨rfl, add_song_to_playlist_absent [] "p" ⟨"i", "T", []⟩ rfl⟩

/-- Counterexample to C5 as stated: on a store without playlist "p" the
error is the `Other` variant, not `PlaylistNotFound`. -/
theorem add_song_to_playlist_absent_counterexample :
    (add_song_to_playlist ([] : PStore) "p" ⟨"i", "T", []⟩).1 =
      .error (.Other "Error: In Opening Playlist") ∧
    ¬ (add_song_to_playlist ([] : PStore) "p" ⟨"i", "T", []⟩).1 =
      .error (.PlaylistNotFound "p") := by
  refine ⟨rfl, ?_⟩
  intro h
  rw [show (add_song_to_playlist ([] : PStore) "p" ⟨"i", "T", []⟩).1 =
      Except.error (.Other "Error: In Opening Playlist") from rfl] at h
  simp at h

theorem filter_not_eq_self_of_countP_zero {α : Type} (q : α → Prop)
    [DecidablePred q] (l : List α)
    (h : l.countP (fun a => decide (q a)) = 0) :
    l.filter (fun a => decide ¬ q a) = l := by
  rw [List.filter_eq_self]
  intro a ha
  have := List.countP_eq_zero.mp h a ha
  simp only [decide_eq_true_eq] at this ⊢
  exact this

theorem length_filter_not_of_countP_one {α : Type} (q : α → Prop)
    [DecidablePred q] (l : List α)
    (h : l.countP (fun a => decide (q a)) = 1) :
    (l.filter (fun a => decide ¬ q a)).length + 1 = l.length := by
  induction l with
  | nil => simp [List.countP_nil] at h
  | cons a t ih =>
    by_cases hq : q a
    · have hzero : t.countP (fun a => decide (q a)) = 0 := by
        rw [List.countP_cons] at h
        simp only [decide_eq_true_eq, hq, if_true] at h
        omega
      rw [List.filter_cons]
      simp only [decide_eq_true_eq, hq, not_true, decide_False]
      simp only [Bool.false_eq_true, if_false]
      rw [filter_not_eq_self_of_countP_zero q t hzero, List.length_cons]
    · have hone : t.countP (fun a => decide (q a)) = 1 := by
        rw [List.countP_cons] at h
        simp only [decide_eq_true_eq, hq, if_false] at h
        omega
      rw [List.filter_cons]
      simp only [decide_eq_true_eq, hq, not_false_iff, decide_True, if_true]
      rw [List.length_cons, List.length_cons]
      rw [← ih hone]

/-- C4: adding a song whose id is already present (exactly once, as the
uniqueness invariant guarantees) to an existing playlist keeps the entry
count, bumps `max_index` by one, and moves the entry for that id to the
end of the `get_playlist` order. -/
theorem add_track_existing_id (db : PStore) (name : String) (song : Song)
    (pl : UserPlaylist) (hget : sledGet db name = some pl)
    (hidx : ∀ p ∈ pl.songs, p.1 < pl.max_index)
    (hcount : pl.songs.countP (fun p => decide (p.2.id = song.id)) = 1) :
    (add_song_to_playlist db name song).1 = .ok () ∧
    sledGet (add_song_to_playlist db name song).2 name =
      some (pl.addSong song) ∧
    (pl.addSong song).songs.length = pl.songs.length ∧
    (pl.addSong song).max_index = pl.max_index + 1 ∧
    ∃ tracks,
      get_playlist (add_song_to_playlist db name song).2 name = .ok tracks ∧
      tracks.length = pl.songs.length ∧
      tracks.getLast? = some song := by
  have hstep : add_song_to_playlist db name song =
      (.ok (), sledInsert db name (pl.addSong song)) := by
    simp only [add_song_to_playlist, hget]
  have hget2 : sledGet (sledInsert db name (pl.addSong song)) name =
      some (pl.addSong song) := sledGet_insert_self _ _ _
  have hflen :
      (pl.songs.filter (fun s => decide ¬ s.2.id = song.id)).length + 1 =
        pl.songs.length :=
    length_filter_not_of_countP_one (fun s => s.2.id = song.id) pl.songs hcount
  have hlen : (pl.addSong song).songs.length = pl.songs.length := by
    simp only [UserPlaylist.addSong, List.length_append, List.length_singleton]
    exact hflen
  have hlast :
      ((pl.addSong song).songs.mergeSort
        (fun a b => decide (a.1 ≤ b.1))).getLast? =
      some (pl.max_index, song) := by
    have hx : (pl.max_index, song) ∈ (pl.addSong song).songs := by
      simp [UserPlaylist.addSong]
    have hmem_of : ∀ y ∈ (pl.addSong song).songs,
        y ∈ pl.songs ∨ y = (pl.max_index, song) := by
      intro y hy
      simp only [UserPlaylist.addSong, List.mem_append,
        List.mem_singleton] at hy
      rcases hy with hy | hy
      · exact Or.inl (List.mem_filter.mp hy).1
      · exact Or.inr hy
    exact mergeSort_getLast_of_strict_max Prod.fst _ (pl.max_index, song) hx
      (by
        intro y hy
        rcases hmem_of y hy with h | h
        · exact le_of_lt (hidx y h)
        · rw [h])
      (by
        intro y hy hkey
        rcases hmem_of y hy with h | h
        · exact absurd hkey (Nat.ne_of_lt (hidx y h))
        · exact h)
  refine ⟨by rw [hstep], by rw [hstep]; exact hget2, hlen, rfl, ?_⟩
  refine ⟨((pl.addSong song).songs.mergeSort
      (fun a b => decide (a.1 ≤ b.1))).map (·.2), ?_, ?_, ?_⟩
  · rw [hstep]
    simp only [get_playlist, hget2]
  · rw [List.length_map, List.length_mergeSort]
    exact hlen
  · rw [List.getLast?_map, hlast]
    rfl

/-- Witness for C4: playlist "P" holding ids "a","b" with `max_index = 2`;
the song with id "a" is added again. -/
theorem add_track_existing_id_witness :
    sledGet ([("P", UserPlaylist.mk "P" 2
        [(0, ⟨"a", "A", []⟩), (1, ⟨"b", "B", []⟩)])] : PStore) "P" =
      some (UserPlaylist.mk "P" 2 [(0, ⟨"a", "A", []⟩), (1, ⟨"b", "B", []⟩)]) ∧
    (∀ p ∈ (UserPlaylist.mk "P" 2
        [(0, ⟨"a", "A", []⟩), (1, ⟨"b", "B", []⟩)]).songs, p.1 < 2) ∧
    ((UserPlaylist.mk "P" 2
        [(0, ⟨"a", "A", []⟩), (1, ⟨"b", "B", []⟩)]).songs.countP
      (fun p => decide (p.2.id = (Song.mk "a" "A" []).id)) = 1) ∧
    ∃ tracks,
      get_playlist (add_song_to_playlist
        [("P", UserPlaylist.mk "P" 2
          [(0, ⟨"a", "A", []⟩), (1, ⟨"b", "B", []⟩)])] "P"
        (Song.mk "a" "A" [])).2 "P" = .ok tracks ∧
      tracks.length = (UserPlaylist.mk "P" 2
        [(0, ⟨"a", "A", []⟩), (1, ⟨"b", "B", []⟩)]).songs.length ∧
      tracks.getLast? = some (Song.mk "a" "A" []) :=
  ⟨rfl, by decide, by decide,
    (add_track_existing_id
      [("P", UserPlaylist.mk "P" 2 [(0, ⟨"a", "A", []⟩), (1, ⟨"b", "B", []⟩)])]
      "P" (Song.mk "a" "A" [])
      (UserPlaylist.mk "P" 2 [(0, ⟨"a", "A", []⟩), (1, ⟨"b", "B", []⟩)])
      rfl (by decide) (by decide)).2.2.2.2⟩

/-- C8: on a store whose decodable records are `2 * HISTORY_PAGE_SIZE`
pairwise-distinct entries, the pages at offsets 0 and `HISTORY_PAGE_SIZE`
are disjoint, together are exactly the store's entries, and each is
sorted by `last_played_at` descending. -/
theorem get_history_pages_partition (db : HStore)
    (hnodup : (db.filterMap (fun p => p.2.deserializeEntry)).Nodup)
    (hlen : (db.filterMap (fun p => p.2.deserializeEntry)).length =
      2 * HISTORY_PAGE_SIZE) :
    (get_history db 0).Disjoint (get_history db HISTORY_PAGE_SIZE) ∧
    (get_history db 0 ++ get_history db HISTORY_PAGE_SIZE).Perm
      (db.filterMap (fun p => p.2.deserializeEntry)) ∧
    List.Sorted (fun e1 e2 => e2.time_stamp ≤ e1.time_stamp)
      (get_history db 0) ∧
    List.Sorted (fun e1 e2 => e2.time_stamp ≤ e1.time_stamp)
      (get_history db HISTORY_PAGE_SIZE) := by
  set l := db.filterMap (fun p => p.2.deserializeEntry) with hl
  set s := l.mergeSort (fun e1 e2 => decide (e2.time_stamp ≤ e1.time_stamp))
    with hs
  have hperm : s.Perm l := List.mergeSort_perm _ _
  have hslen : s.length = 2 * HISTORY_PAGE_SIZE := by
    rw [hs, List.length_mergeSort]
    exact hlen
  have hsorted : List.Pairwise
      (fun a b => decide (b.time_stamp ≤ a.time_stamp) = true) s := by
    rw [hs]
    exact @List.sorted_mergeSort HistoryEntry
      (fun e1 e2 => decide (e2.time_stamp ≤ e1.time_stamp))
      (fun a b c h1 h2 => by
        simp only [decide_eq_true_eq] at h1 h2 ⊢
        exact le_trans h2 h1)
      (fun a b => by
        simp only [Bool.or_eq_true, decide_eq_true_eq]
        exact Nat.le_total b.time_stamp a.time_stamp) l
  have hsorted' : List.Pairwise
      (fun a b : HistoryEntry => b.time_stamp ≤ a.time_stamp) s :=
    hsorted.imp (fun h => of_decide_eq_true h)
  have h0 : get_history db 0 = s.take HISTORY_PAGE_SIZE := by
    simp only [get_history, List.drop_zero, ← hl, ← hs]
  have h20 : get_history db HISTORY_PAGE_SIZE = s.drop HISTORY_PAGE_SIZE := by
    simp only [get_history, ← hl, ← hs]
    apply List.take_of_length_le
    rw [List.length_drop, hslen]
    omega
  have hnodup_s : s.Nodup := (hperm.nodup_iff).mpr hnodup
  refine ⟨?_, ?_, ?_, ?_⟩
  · rw [h0, h20]
    exact List.disjoint_take_drop hnodup_s (le_refl _)
  · rw [h0, h20, List.take_append_drop]
    exact hperm
  · rw [h0]
    exact List.Pairwise.sublist (List.take_sublist _ _) hsorted'
  · rw [h20]
    exact List.Pairwise.sublist (List.drop_sublist _ _) hsorted'

/-- Witness for C8: a store of 40 distinct entries with timestamps
0..39. -/
theorem get_history_pages_partition_witness :
    (c8db.filterMap (fun p => p.2.deserializeEntry)).Nodup ∧
    (c8db.filterMap (fun p => p.2.deserializeEntry)).length =
      2 * HISTORY_PAGE_SIZE ∧
    (get_history c8db 0).Disjoint (get_history c8db HISTORY_PAGE_SIZE) :=
  ⟨by decide, by decide,
    (get_history_pages_partition c8db (by decide) (by decide)).1⟩
